import Mathlib

/-!
Verification of the structured-tree partitioning engine of the `equinox`
repository (filter / partition / combine / split / merge over nested
heterogeneous trees), together with its neural-network consumer records
(`Conv`, `ConvTranspose`, `LayerNorm`).

The engine implementation (`equinox/filters.py`) is not part of the source
sample; only its test-suite (`tests/test_filters.py`) and two consumer
modules (`equinox/nn/conv.py`, `equinox/nn/normalization.py`) are.  The
engine is therefore modelled from the specification, with the behaviour
exercised by the in-repository tests taken as ground truth where the tests
constrain it.  The consumer records are embedded directly from
`equinox/nn/conv.py` and `equinox/nn/normalization.py`.
-/

namespace Eqx

/-- Static-field values of named composite records (hyperparameters such as
channel counts, kernel sizes, padding pairs, dimension-number strings).
Floats are modelled as opaque literal tokens (mantissa/exponent pair); the
engine only ever compares static values for equality. -/
inductive SVal where
  | i (n : Int)
  | b (bb : Bool)
  | s (str : String)
  | f (mantissa exp : Int)
  | ituple (xs : List Int)
  | iptuple (xs : List (Int × Int))
  | stuple (xs : List String)
deriving DecidableEq, Repr

/-- One step of a path into a tree: a sequence index or a mapping key.
Used by structural-mismatch errors to identify the first point of
divergence. -/
inductive Step where
  | idx (i : Nat)
  | key (k : String)
deriving DecidableEq, Repr

/-- Error taxonomy of the engine (spec section 7): structural mismatch
carrying the path of the first divergence, count mismatch of the flat
codec, and invalid filter specification. -/
inductive Err where
  | structuralMismatch (path : List Step)
  | countMismatch
  | invalidFilterSpec
deriving DecidableEq, Repr

/-- Atomic leaf values: numeric buffers of the two array libraries (with a
floating-point flag, a shape, and an opaque content tag), Python scalars
(int / float / bool / string / None) and opaque objects.  The engine never
inspects leaf contents beyond classifier predicates, so contents are
opaque tokens. -/
inductive Leaf where
  | jarr (floating : Bool) (shape : List Int) (tag : String)
  | narr (floating : Bool) (shape : List Int) (tag : String)
  | pint (n : Int)
  | pfloat (mantissa exp : Int)
  | pbool (b : Bool)
  | pstr (s : String)
  | pynone
  | obj (id : Nat)
deriving DecidableEq, Repr

mutual
/-- A tree (spec section 3): a leaf, an ordered sequence, an
insertion-ordered mapping, or a named composite record with static fields
(part of structure) and dynamic fields (subtrees).  The leaf type is a
parameter so that the same shape is shared by value trees (`Leaf`), mask
trees (`Bool`), partition outputs (`Option Leaf`) and structure
descriptors (`Unit`). -/
inductive TreeF (α : Type) where
  | leaf (v : α)
  | list (xs : TreeList α)
  | dict (xs : TreeDict α)
  | record (name : String) (statics : List (String × SVal)) (fields : TreeDict α)
deriving DecidableEq, Repr

/-- Children of an ordered sequence node. -/
inductive TreeList (α : Type) where
  | nil
  | cons (hd : TreeF α) (tl : TreeList α)
deriving DecidableEq, Repr

/-- Key-ordered children of a mapping node or the dynamic fields of a
record, as an insertion-ordered association list. -/
inductive TreeDict (α : Type) where
  | nil
  | cons (k : String) (hd : TreeF α) (tl : TreeDict α)
deriving DecidableEq, Repr
end

/-- An input tree: leaves are concrete `Leaf` values. -/
abbrev Tree := TreeF Leaf

/-- A mask tree: boolean at every leaf position. -/
abbrev MaskTree := TreeF Bool

/-- A partition-output tree: each leaf position holds either a present
leaf or the explicit absent tag (spec section 9: leaf storage of partition
outputs is an optional leaf, a two-state option, never an overloaded data
value). -/
abbrev PTree := TreeF (Option Leaf)

/-- The structure descriptor type: a tree whose leaves are a uniform
sentinel (spec section 4.2: leaves of any kind contribute a uniform leaf
marker). -/
abbrev Descr := TreeF Unit

/-- The null marker occupying a filtered-out leaf position in a partition
output, as the spec prescribes it (section 9): the absent state of the
optional leaf.  The program as shipped does not realise this prescription:
the marker it writes is the Python `None` value itself, which also occurs
as a genuine leaf value — see `filterRawT` and `null_marker_code_bug`. -/
def nullMarker : Option Leaf := none

mutual
/-- Map a function over every leaf of a tree, keeping structure. -/
def mapT (f : α → β) : TreeF α → TreeF β
  | .leaf v => .leaf (f v)
  | .list xs => .list (mapL f xs)
  | .dict xs => .dict (mapD f xs)
  | .record n st fs => .record n st (mapD f fs)

/-- Map a function over every leaf of a sequence's children. -/
def mapL (f : α → β) : TreeList α → TreeList β
  | .nil => .nil
  | .cons t ts => .cons (mapT f t) (mapL f ts)

/-- Map a function over every leaf of a mapping's children. -/
def mapD (f : α → β) : TreeDict α → TreeDict β
  | .nil => .nil
  | .cons k t ts => .cons k (mapT f t) (mapD f ts)
end

mutual
/-- Modelled from the spec: section 4.2, `describe(tree)`.  The structure
descriptor encodes container kinds, lengths, keys in order and record
names with their static-field values, with a uniform sentinel at every
leaf (the engine source `equinox/filters.py` is not in the source
sample). -/
def describe : TreeF α → Descr
  | .leaf _ => .leaf ()
  | .list xs => .list (describeL xs)
  | .dict xs => .dict (describeD xs)
  | .record n st fs => .record n st (describeD fs)

/-- Descriptor of a sequence's children. -/
def describeL : TreeList α → TreeList Unit
  | .nil => .nil
  | .cons t ts => .cons (describe t) (describeL ts)

/-- Descriptor of a mapping's children. -/
def describeD : TreeDict α → TreeDict Unit
  | .nil => .nil
  | .cons k t ts => .cons k (describe t) (describeD ts)
end

mutual
/-- Modelled from the spec: the single canonical pre-order leaf traversal
shared by the nested and the flat codec (spec sections 4.6 and 9):
sequence elements in index order, mapping entries in stable key order,
record dynamic fields in declared order; static fields are not leaves and
are excluded. -/
def leaves : TreeF α → List α
  | .leaf v => [v]
  | .list xs => leavesL xs
  | .dict xs => leavesD xs
  | .record _ _ fs => leavesD fs

/-- Leaves of a sequence's children, in index order. -/
def leavesL : TreeList α → List α
  | .nil => []
  | .cons t ts => leaves t ++ leavesL ts

/-- Leaves of a mapping's children, in key order. -/
def leavesD : TreeDict α → List α
  | .nil => []
  | .cons _ t ts => leaves t ++ leavesD ts
end

/-- An atom of a filter specification: a literal boolean or a
single-argument predicate over leaf values. -/
inductive SpecAtom where
  | b (bb : Bool)
  | p (f : Leaf → Bool)

/-- A filter specification, as accepted by `filter` / `partition` /
`split`: a tree whose leaves are booleans or predicates.  A bare
predicate or a bare boolean is the degenerate single-leaf tree. -/
abbrev Spec := TreeF SpecAtom

/-- Broadcast one specification atom over a whole subtree into a boolean
mask tree, as the resolver of spec section 4.3 requires of its mask-tree
output: a predicate is applied to every leaf independently, a boolean is
replicated at every leaf position.  The program's direct tree-shaped
filtering instead applies a boolean atom to the subtree as a unit — that
behaviour is modelled separately by `filterRawT`. -/
def applyAtom : SpecAtom → TreeF Leaf → TreeF Bool
  | .b bb, t => mapT (fun _ => bb) t
  | .p f, t => mapT f t

mutual
/-- Modelled from the spec: section 4.3, `resolve_mask(tree, filter_spec)`
(the engine source `equinox/filters.py` is not in the source sample).  A
specification leaf (predicate or boolean) is broadcast over the whole
subtree at that position — including at the root, which covers the bare
predicate and bare boolean cases — as exercised by
`tests/test_filters.py::test_filter` with `[False, True, [filter_fn,
True]]`.  Where the specification is a composite, its kind, length, keys
and (for records) name and static values must match the tree; the first
divergence is reported as a `StructuralMismatch` carrying its path.  The
`path` argument is the reversed path from the root to the current node. -/
def resolveT (t : Tree) (s : Spec) (path : List Step) : Except Err (TreeF Bool) :=
  match t, s with
  | t, .leaf a => .ok (applyAtom a t)
  | .list xs, .list ss => (resolveL xs ss path 0).map .list
  | .dict xs, .dict ss => (resolveD xs ss path).map .dict
  | .record n st fs, .record n' st' fs' =>
      if n = n' ∧ st = st' then (resolveD fs fs' path).map (.record n st)
      else .error (.structuralMismatch path.reverse)
  | _, _ => .error (.structuralMismatch path.reverse)

/-- Resolve the children of parallel sequence nodes; `i` is the index of
the next child.  A length difference is a mismatch at the containing
node. -/
def resolveL (ts : TreeList Leaf) (ss : TreeList SpecAtom) (path : List Step) (i : Nat) :
    Except Err (TreeList Bool) :=
  match ts, ss with
  | .nil, .nil => .ok .nil
  | .cons t ts, .cons s ss => do
      let m ← resolveT t s (.idx i :: path)
      let ms ← resolveL ts ss path (i + 1)
      return .cons m ms
  | _, _ => .error (.structuralMismatch path.reverse)

/-- Resolve the children of parallel mapping (or record-field) nodes.  A
key difference or a length difference is a mismatch at the containing
node. -/
def resolveD (ts : TreeDict Leaf) (ss : TreeDict SpecAtom) (path : List Step) :
    Except Err (TreeDict Bool) :=
  match ts, ss with
  | .nil, .nil => .ok .nil
  | .cons k t ts, .cons k' s ss =>
      if k = k' then do
        let m ← resolveT t s (.key k :: path)
        let ms ← resolveD ts ss path
        return .cons k m ms
      else .error (.structuralMismatch path.reverse)
  | _, _ => .error (.structuralMismatch path.reverse)
end

/-- Modelled from the spec: the resolver entry point, starting from the
empty path. -/
def resolve_mask (t : Tree) (s : Spec) : Except Err (TreeF Bool) :=
  resolveT t s []

mutual
/-- Purely structural check of a filter specification against a structure
descriptor, returning the error `resolveT` would raise, if any.  It sees
only the descriptor, never a leaf value: the specification is validated
eagerly, before any leaf-level work. -/
def checkT (d : Descr) (s : Spec) (path : List Step) : Option Err :=
  match d, s with
  | _, .leaf _ => none
  | .list xs, .list ss => checkL xs ss path 0
  | .dict xs, .dict ss => checkD xs ss path
  | .record n st fs, .record n' st' fs' =>
      if n = n' ∧ st = st' then checkD fs fs' path
      else some (.structuralMismatch path.reverse)
  | _, _ => some (.structuralMismatch path.reverse)

/-- Structural check of sequence children. -/
def checkL (ds : TreeList Unit) (ss : TreeList SpecAtom) (path : List Step) (i : Nat) :
    Option Err :=
  match ds, ss with
  | .nil, .nil => none
  | .cons d ds, .cons s ss =>
      match checkT d s (.idx i :: path) with
      | some e => some e
      | none => checkL ds ss path (i + 1)
  | _, _ => some (.structuralMismatch path.reverse)

/-- Structural check of mapping children. -/
def checkD (ds : TreeDict Unit) (ss : TreeDict SpecAtom) (path : List Step) :
    Option Err :=
  match ds, ss with
  | .nil, .nil => none
  | .cons k d ds, .cons k' s ss =>
      if k = k' then
        match checkT d s (.key k :: path) with
        | some e => some e
        | none => checkD ds ss path
      else some (.structuralMismatch path.reverse)
  | _, _ => some (.structuralMismatch path.reverse)
end

mutual
/-- Modelled from the spec: section 4.4, the partition engine on a tree
and a resolved mask of identical structure (the engine source
`equinox/filters.py` is not in the source sample).  At every leaf, a true
mask bit places the value in the first output and the null marker in the
second; a false bit inverts the roles.  Statics and all structure are
copied unchanged into both outputs.  The final catch-all arm handles
structurally mismatched masks, which `resolve_mask` never produces; the
exported `partition` only ever applies this to resolved masks. -/
def partT : Tree → TreeF Bool → PTree × PTree
  | .leaf v, .leaf bb =>
      if bb then (.leaf (some v), .leaf nullMarker) else (.leaf nullMarker, .leaf (some v))
  | .list xs, .list ms =>
      let p := partL xs ms
      (.list p.1, .list p.2)
  | .dict xs, .dict ms =>
      let p := partD xs ms
      (.dict p.1, .dict p.2)
  | .record n st fs, .record _ _ mfs =>
      let p := partD fs mfs
      (.record n st p.1, .record n st p.2)
  | t, _ => (mapT some t, mapT (fun _ => nullMarker) t)

/-- Partition the children of parallel sequence nodes. -/
def partL : TreeList Leaf → TreeList Bool → TreeList (Option Leaf) × TreeList (Option Leaf)
  | .nil, _ => (.nil, .nil)
  | .cons t ts, .cons m ms =>
      let p := partT t m
      let ps := partL ts ms
      (.cons p.1 ps.1, .cons p.2 ps.2)
  | ts, .nil => (mapL some ts, mapL (fun _ => nullMarker) ts)

/-- Partition the children of parallel mapping nodes. -/
def partD : TreeDict Leaf → TreeDict Bool → TreeDict (Option Leaf) × TreeDict (Option Leaf)
  | .nil, _ => (.nil, .nil)
  | .cons k t ts, .cons _ m ms =>
      let p := partT t m
      let ps := partD ts ms
      (.cons k p.1 ps.1, .cons k p.2 ps.2)
  | ts, .nil => (mapD some ts, mapD (fun _ => nullMarker) ts)
end

/-- Modelled from the spec: `partition(tree, filter_spec)` — resolve the
specification into a mask, then run the partition engine; a structural
mismatch of a tree-shaped specification is surfaced before any leaf-level
work. -/
def partition (t : Tree) (s : Spec) : Except Err (PTree × PTree) :=
  (resolve_mask t s).map (partT t)

/-- Modelled from the spec: section 4.4, `filter(tree, filter_spec)` is
partitioning and discarding the complement. -/
def filter (t : Tree) (s : Spec) : Except Err PTree :=
  (partition t s).map Prod.fst

mutual
/-- First point of divergence between two structure descriptors, as a
path, or `none` when they are equal.  `path` is the reversed path from
the root. -/
def descrDiff (d e : Descr) (path : List Step) : Option (List Step) :=
  match d, e with
  | .leaf _, .leaf _ => none
  | .list xs, .list ys => descrDiffL xs ys path 0
  | .dict xs, .dict ys => descrDiffD xs ys path
  | .record n st fs, .record n' st' fs' =>
      if n = n' ∧ st = st' then descrDiffD fs fs' path
      else some path.reverse
  | _, _ => some path.reverse

/-- Divergence search over sequence children. -/
def descrDiffL (ds es : TreeList Unit) (path : List Step) (i : Nat) : Option (List Step) :=
  match ds, es with
  | .nil, .nil => none
  | .cons d ds, .cons e es =>
      match descrDiff d e (.idx i :: path) with
      | some p => some p
      | none => descrDiffL ds es path (i + 1)
  | _, _ => some path.reverse

/-- Divergence search over mapping children. -/
def descrDiffD (ds es : TreeDict Unit) (path : List Step) : Option (List Step) :=
  match ds, es with
  | .nil, .nil => none
  | .cons k d ds, .cons k' e es =>
      if k = k' then
        match descrDiff d e (.key k :: path) with
        | some p => some p
        | none => descrDiffD ds es path
      else some path.reverse
  | _, _ => some path.reverse
end

mutual
/-- Merge two structurally identical partition-output trees: at every leaf
position the first non-null value wins; two nulls stay null.  Only applied
after the structural check of `combine`. -/
def combT : PTree → PTree → PTree
  | .leaf a, .leaf bb =>
      (match a with
       | some v => .leaf (some v)
       | none => .leaf bb)
  | .list xs, .list ys => .list (combL xs ys)
  | .dict xs, .dict ys => .dict (combD xs ys)
  | .record n st fs, .record _ _ gs => .record n st (combD fs gs)
  | t, _ => t

/-- Leafwise merge of sequence children. -/
def combL : TreeList (Option Leaf) → TreeList (Option Leaf) → TreeList (Option Leaf)
  | .nil, _ => .nil
  | .cons t ts, .cons u us => .cons (combT t u) (combL ts us)
  | ts, .nil => ts

/-- Leafwise merge of mapping children. -/
def combD : TreeDict (Option Leaf) → TreeDict (Option Leaf) → TreeDict (Option Leaf)
  | .nil, _ => .nil
  | .cons k t ts, .cons _ u us => .cons k (combT t u) (combD ts us)
  | ts, .nil => ts
end

/-- First structural mismatch between a reference descriptor and the
descriptors of the remaining `combine` arguments, in argument order. -/
def firstMismatch (d : Descr) : List PTree → Option Err
  | [] => none
  | u :: us =>
      match descrDiff d (describe u) [] with
      | some p => some (.structuralMismatch p)
      | none => firstMismatch d us

/-- Modelled from the spec: section 4.5, `combine(*trees)` on at least one
argument (the engine source `equinox/filters.py` is not in the source
sample).  All arguments must share the reference argument's structure
descriptor — checked up front, before any leaf is inspected, reporting the
first divergence — then leaves are merged left to right, the first
non-null value winning at each position. -/
def combine (t : PTree) (ts : List PTree) : Except Err PTree :=
  match firstMismatch (describe t) ts with
  | some e => .error e
  | none => .ok (ts.foldl combT t)

mutual
/-- Modelled from the spec: section 4.6 step 3 — the ordered sequence of
leaf values whose mask bit is true, in the canonical pre-order traversal
(the engine source `equinox/filters.py` is not in the source sample).
Only applied to resolved masks; the catch-all arms for mismatched shapes
are never reached through the exported `split`. -/
def keptT : Tree → TreeF Bool → List Leaf
  | .leaf v, .leaf bb => if bb then [v] else []
  | .list xs, .list ms => keptL xs ms
  | .dict xs, .dict ms => keptD xs ms
  | .record _ _ fs, .record _ _ mfs => keptD fs mfs
  | _, _ => []

/-- Kept leaves of sequence children, in index order. -/
def keptL : TreeList Leaf → TreeList Bool → List Leaf
  | .cons t ts, .cons m ms => keptT t m ++ keptL ts ms
  | _, _ => []

/-- Kept leaves of mapping children, in key order. -/
def keptD : TreeDict Leaf → TreeDict Bool → List Leaf
  | .cons _ t ts, .cons _ m ms => keptT t m ++ keptD ts ms
  | _, _ => []
end

mutual
/-- Modelled from the spec: section 4.6 step 3 — the ordered sequence of
leaf values whose mask bit is false, in the canonical pre-order
traversal. -/
def otherT : Tree → TreeF Bool → List Leaf
  | .leaf v, .leaf bb => if bb then [] else [v]
  | .list xs, .list ms => otherL xs ms
  | .dict xs, .dict ms => otherD xs ms
  | .record _ _ fs, .record _ _ mfs => otherD fs mfs
  | _, _ => []

/-- Not-kept leaves of sequence children, in index order. -/
def otherL : TreeList Leaf → TreeList Bool → List Leaf
  | .cons t ts, .cons m ms => otherT t m ++ otherL ts ms
  | _, _ => []

/-- Not-kept leaves of mapping children, in key order. -/
def otherD : TreeDict Leaf → TreeDict Bool → List Leaf
  | .cons _ t ts, .cons _ m ms => otherT t m ++ otherD ts ms
  | _, _ => []
end

/-- Modelled from the spec: section 4.6, `split(tree, filter_spec)` —
resolve the mask, then emit the kept leaves, the not-kept leaves, the full
boolean mask sequence (all three in the single canonical pre-order
traversal) and the structure descriptor of the tree. -/
def splitTree (t : Tree) (s : Spec) :
    Except Err (List Leaf × List Leaf × List Bool × Descr) :=
  (resolve_mask t s).map fun m => (keptT t m, otherT t m, leaves m, describe t)

/-- Number of leaf positions implied by a structure descriptor. -/
def leafCount (d : Descr) : Nat := (leaves d).length

mutual
/-- Replay the traversal implied by a structure descriptor, consuming the
next element of the kept sequence when the next mask bit is true and of
the other sequence when it is false; returns the rebuilt tree together
with the unconsumed remainders, or `none` when a needed sequence is
exhausted. -/
def rebuildT (d : Descr) (kept other : List Leaf) (bits : List Bool) :
    Option (Tree × List Leaf × List Leaf × List Bool) :=
  match d, bits with
  | .leaf _, bb :: bs =>
      if bb then
        match kept with
        | v :: ks => some (.leaf v, ks, other, bs)
        | [] => none
      else
        match other with
        | v :: os => some (.leaf v, kept, os, bs)
        | [] => none
  | .leaf _, [] => none
  | .list ds, bits => do
      let (xs, ks, os, bs) ← rebuildL ds kept other bits
      return (.list xs, ks, os, bs)
  | .dict ds, bits => do
      let (xs, ks, os, bs) ← rebuildD ds kept other bits
      return (.dict xs, ks, os, bs)
  | .record n st ds, bits => do
      let (xs, ks, os, bs) ← rebuildD ds kept other bits
      return (.record n st xs, ks, os, bs)

/-- Rebuild sequence children in index order. -/
def rebuildL (ds : TreeList Unit) (kept other : List Leaf) (bits : List Bool) :
    Option (TreeList Leaf × List Leaf × List Leaf × List Bool) :=
  match ds with
  | .nil => some (.nil, kept, other, bits)
  | .cons d ds => do
      let (x, ks, os, bs) ← rebuildT d kept other bits
      let (xs, ks', os', bs') ← rebuildL ds ks os bs
      return (.cons x xs, ks', os', bs')

/-- Rebuild mapping children in key order. -/
def rebuildD (ds : TreeDict Unit) (kept other : List Leaf) (bits : List Bool) :
    Option (TreeDict Leaf × List Leaf × List Leaf × List Bool) :=
  match ds with
  | .nil => some (.nil, kept, other, bits)
  | .cons k d ds => do
      let (x, ks, os, bs) ← rebuildT d kept other bits
      let (xs, ks', os', bs') ← rebuildD ds ks os bs
      return (.cons k x xs, ks', os', bs')
end

/-- Modelled from the spec: section 4.6, `merge(kept, other, mask, descr)`
— check that the mask sequence length matches the descriptor's leaf count
(CountMismatch otherwise), then replay the canonical traversal, drawing
each leaf from the kept or the other sequence according to the next mask
bit; exhausting either leaf sequence is a CountMismatch as well. -/
def mergeTree (kept other : List Leaf) (bits : List Bool) (d : Descr) :
    Except Err Tree :=
  if bits.length = leafCount d then
    match rebuildT d kept other bits with
    | some (t, _, _, _) => .ok t
    | none => .error .countMismatch
  else .error .countMismatch

/-- Modelled from the spec: section 4.1, `is_numeric_buffer` — the code
name `is_array` comes from `tests/test_filters.py::test_is_array`, whose
expected results make it true exactly for the primary numeric-buffer type
(`jax` arrays) and false for the other array library's buffers, scalars
and containers. -/
def is_array : TreeF Leaf → Bool
  | .leaf (.jarr _ _ _) => true
  | _ => false

/-- Modelled from the spec: section 4.1, `is_leaf_value` — code name
`is_array_like` (`tests/test_filters.py::test_is_array_like`): true for
numeric buffers of either library and for Python bool/int/float scalars;
false for containers, strings, `None` and opaque objects. -/
def is_array_like : TreeF Leaf → Bool
  | .leaf (.jarr _ _ _) => true
  | .leaf (.narr _ _ _) => true
  | .leaf (.pint _) => true
  | .leaf (.pfloat _ _) => true
  | .leaf (.pbool _) => true
  | _ => false

/-- Modelled from the spec: section 4.1, `is_floating_numeric_buffer` —
code name `is_inexact_array`: true only for floating-point buffers of the
primary numeric-buffer type. -/
def is_inexact_array : TreeF Leaf → Bool
  | .leaf (.jarr floating _ _) => floating
  | _ => false

/-- Modelled from the spec: section 4.1, `is_floating_leaf_value` — code
name `is_inexact_array_like`: true for floating-point numeric buffers of
either library and plain float scalars; false for integer/boolean values
and everything else. -/
def is_inexact_array_like : TreeF Leaf → Bool
  | .leaf (.jarr floating _ _) => floating
  | .leaf (.narr floating _ _) => floating
  | .leaf (.pfloat _ _) => true
  | _ => false

/- String constants for field names, record names and content tags. -/

/-- Field name of weight parameters. -/
def kWeight := "weight"
/-- Field name of bias parameters. -/
def kBias := "bias"
/-- Record name of the `Conv` consumer. -/
def nConv := "Conv"
/-- Record name of the `ConvTranspose` consumer. -/
def nConvTranspose := "ConvTranspose"
/-- Record name of the `LayerNorm` consumer. -/
def nLayerNorm := "LayerNorm"
/-- Record name of the `Linear` consumer. -/
def nLinear := "Linear"
/-- Static field name `num_spatial_dims`. -/
def sNumSpatialDims := "num_spatial_dims"
/-- Static field name `in_channels`. -/
def sInChannels := "in_channels"
/-- Static field name `out_channels`. -/
def sOutChannels := "out_channels"
/-- Static field name `kernel_size`. -/
def sKernelSize := "kernel_size"
/-- Static field name `stride`. -/
def sStride := "stride"
/-- Static field name `padding`. -/
def sPadding := "padding"
/-- Static field name `output_padding`. -/
def sOutputPadding := "output_padding"
/-- Static field name `dilation`. -/
def sDilation := "dilation"
/-- Static field name `use_bias`. -/
def sUseBias := "use_bias"
/-- Static field name `dimension_numbers`. -/
def sDimensionNumbers := "dimension_numbers"
/-- Static field name `normalized_shape`. -/
def sNormalizedShape := "normalized_shape"
/-- Static field name `eps`. -/
def sEps := "eps"
/-- Static field name `elementwise_affine`. -/
def sElementwiseAffine := "elementwise_affine"
/-- Static field name `in_features` of `Linear`. -/
def sInFeatures := "in_features"
/-- Static field name `out_features` of `Linear`. -/
def sOutFeatures := "out_features"
/-- Content tag of an all-ones buffer. -/
def tagOnes := "ones"
/-- Content tag of an all-zeros buffer. -/
def tagZeros := "zeros"
/-- Content tag of a randomly initialised buffer. -/
def tagRand := "rand"

/-- Field declarations of `Conv` in class-body order, transcribed from
`src/equinox/nn/conv.py` lines 72-81; `true` marks a `static_field()`
declaration. -/
def convFieldDecls : List (String × Bool) :=
  [(sNumSpatialDims, true), (kWeight, false), (kBias, false), (sInChannels, true),
   (sOutChannels, true), (sKernelSize, true), (sStride, true), (sPadding, true),
   (sDilation, true), (sUseBias, true)]

/-- Field declarations of `ConvTranspose` in class-body order, transcribed
from `src/equinox/nn/conv.py` lines 294-305. -/
def convTransposeFieldDecls : List (String × Bool) :=
  [(sNumSpatialDims, true), (kWeight, false), (kBias, false), (sInChannels, true),
   (sOutChannels, true), (sKernelSize, true), (sStride, true), (sPadding, true),
   (sOutputPadding, true), (sDilation, true), (sUseBias, true), (sDimensionNumbers, true)]

/-- Field declarations of `LayerNorm` in class-body order, transcribed
from `src/equinox/nn/normalization.py` lines 13-17. -/
def layerNormFieldDecls : List (String × Bool) :=
  [(sNormalizedShape, true), (sEps, true), (sElementwiseAffine, true),
   (kWeight, false), (kBias, false)]

/-- A `Conv` instance as a tree, embedded from `src/equinox/nn/conv.py`:
the `static_field()` declarations become static record fields (in
class-body order), `weight` and `bias` are the dynamic leaves.  `padding`
holds before/after pairs, as built by `Conv.__init__`. -/
def mkConv (nsd ic oc : Int) (ks st dl : List Int) (pd : List (Int × Int))
    (ub : Bool) (w bv : Leaf) : Tree :=
  .record nConv
    [(sNumSpatialDims, .i nsd), (sInChannels, .i ic), (sOutChannels, .i oc),
     (sKernelSize, .ituple ks), (sStride, .ituple st), (sPadding, .iptuple pd),
     (sDilation, .ituple dl), (sUseBias, .b ub)]
    (.cons kWeight (.leaf w) (.cons kBias (.leaf bv) .nil))

/-- A `ConvTranspose` instance as a tree, embedded from
`src/equinox/nn/conv.py`: its `padding` is a plain per-dimension tuple
(`parse(padding)` in `ConvTranspose.__init__`), and `dimension_numbers` is
a tuple of layout strings. -/
def mkConvTranspose (nsd ic oc : Int) (ks st pd opd dl : List Int)
    (ub : Bool) (dn : List String) (w bv : Leaf) : Tree :=
  .record nConvTranspose
    [(sNumSpatialDims, .i nsd), (sInChannels, .i ic), (sOutChannels, .i oc),
     (sKernelSize, .ituple ks), (sStride, .ituple st), (sPadding, .ituple pd),
     (sOutputPadding, .ituple opd), (sDilation, .ituple dl), (sUseBias, .b ub),
     (sDimensionNumbers, .stuple dn)]
    (.cons kWeight (.leaf w) (.cons kBias (.leaf bv) .nil))

/-- A `LayerNorm` instance as a tree, embedded from
`src/equinox/nn/normalization.py` lines 36-40: `weight` is a ones buffer
of `normalized_shape` when `elementwise_affine` holds and the Python value
`None` otherwise; `bias` likewise with zeros. -/
def mkLayerNorm (nshape : List Int) (eps : SVal) (affine : Bool) : Tree :=
  .record nLayerNorm
    [(sNormalizedShape, .ituple nshape), (sEps, eps), (sElementwiseAffine, .b affine)]
    (.cons kWeight (.leaf (if affine then .jarr true nshape tagOnes else .pynone))
      (.cons kBias (.leaf (if affine then .jarr true nshape tagZeros else .pynone)) .nil))

/-- Modelled from the spec: a `Linear(1, 1)` consumer record
(`equinox/nn/linear.py` is not in the source sample) — a named composite
with static hyperparameters and dynamic floating-point `weight` and `bias`
buffers, as used by the tests. -/
def mkLinear (w bv : Leaf) : Tree :=
  .record nLinear
    [(sInFeatures, .i 1), (sOutFeatures, .i 1), (sUseBias, .b true)]
    (.cons kWeight (.leaf w) (.cons kBias (.leaf bv) .nil))

/-! ### General lemmas about the embedding -/

mutual
/-- Mapping over leaves commutes with the canonical traversal. -/
theorem leaves_mapT (f : α → β) : ∀ t : TreeF α, leaves (mapT f t) = (leaves t).map f
  | .leaf v => by simp [leaves, mapT]
  | .list xs => by simp [leaves, mapT, leavesL_mapL f xs]
  | .dict xs => by simp [leaves, mapT, leavesD_mapD f xs]
  | .record n st fs => by simp [leaves, mapT, leavesD_mapD f fs]

/-- Sequence-children case of `leaves_mapT`. -/
theorem leavesL_mapL (f : α → β) : ∀ ts : TreeList α, leavesL (mapL f ts) = (leavesL ts).map f
  | .nil => by simp [leavesL, mapL]
  | .cons t ts => by simp [leavesL, mapL, leaves_mapT f t, leavesL_mapL f ts]

/-- Mapping-children case of `leaves_mapT`. -/
theorem leavesD_mapD (f : α → β) : ∀ ts : TreeDict α, leavesD (mapD f ts) = (leavesD ts).map f
  | .nil => by simp [leavesD, mapD]
  | .cons k t ts => by simp [leavesD, mapD, leaves_mapT f t, leavesD_mapD f ts]
end

mutual
/-- Mapping over leaves does not change the structure descriptor. -/
theorem describe_mapT (f : α → β) : ∀ t : TreeF α, describe (mapT f t) = describe t
  | .leaf v => by simp [describe, mapT]
  | .list xs => by simp [describe, mapT, describeL_mapL f xs]
  | .dict xs => by simp [describe, mapT, describeD_mapD f xs]
  | .record n st fs => by simp [describe, mapT, describeD_mapD f fs]

/-- Sequence-children case of `describe_mapT`. -/
theorem describeL_mapL (f : α → β) : ∀ ts : TreeList α, describeL (mapL f ts) = describeL ts
  | .nil => by simp [describeL, mapL]
  | .cons t ts => by simp [describeL, mapL, describe_mapT f t, describeL_mapL f ts]

/-- Mapping-children case of `describe_mapT`. -/
theorem describeD_mapD (f : α → β) : ∀ ts : TreeDict α, describeD (mapD f ts) = describeD ts
  | .nil => by simp [describeD, mapD]
  | .cons k t ts => by simp [describeD, mapD, describe_mapT f t, describeD_mapD f ts]
end

mutual
/-- A successfully resolved mask has the same structure descriptor as the
tree it was resolved against (spec section 4.3: a mask tree is used only
after structural validation; broadcast atoms produce structure-identical
masks by construction). -/
theorem resolveT_describe (t : Tree) (s : Spec) (p : List Step) (m : TreeF Bool)
    (h : resolveT t s p = .ok m) : describe m = describe t := by
  match t, s with
  | t, .leaf a =>
      simp only [resolveT, Except.ok.injEq] at h
      subst h
      cases a <;> simp [applyAtom, describe_mapT]
  | .list xs, .list ss =>
      cases hr : resolveL xs ss p 0 with
      | error e =>
          simp only [resolveT, hr, Except.map] at h
          exact Except.noConfusion h
      | ok ms =>
          simp only [resolveT, hr, Except.map, Except.ok.injEq] at h
          subst h
          simp [describe, resolveL_describe xs ss p 0 ms hr]
  | .dict xs, .dict ss =>
      cases hr : resolveD xs ss p with
      | error e =>
          simp only [resolveT, hr, Except.map] at h
          exact Except.noConfusion h
      | ok ms =>
          simp only [resolveT, hr, Except.map, Except.ok.injEq] at h
          subst h
          simp [describe, resolveD_describe xs ss p ms hr]
  | .record n st fs, .record n' st' fs' =>
      simp only [resolveT] at h
      split at h
      · cases hr : resolveD fs fs' p with
        | error e =>
            simp only [hr, Except.map] at h
            exact Except.noConfusion h
        | ok ms =>
            simp only [hr, Except.map, Except.ok.injEq] at h
            subst h
            simp [describe, resolveD_describe fs fs' p ms hr]
      · simp at h
  | .leaf v, .list ss => simp [resolveT] at h
  | .leaf v, .dict ss => simp [resolveT] at h
  | .leaf v, .record n' st' fs' => simp [resolveT] at h
  | .list xs, .dict ss => simp [resolveT] at h
  | .list xs, .record n' st' fs' => simp [resolveT] at h
  | .dict xs, .list ss => simp [resolveT] at h
  | .dict xs, .record n' st' fs' => simp [resolveT] at h
  | .record n st fs, .list ss => simp [resolveT] at h
  | .record n st fs, .dict ss => simp [resolveT] at h

/-- Sequence-children case of `resolveT_describe`. -/
theorem resolveL_describe (ts : TreeList Leaf) (ss : TreeList SpecAtom) (p : List Step)
    (i : Nat) (ms : TreeList Bool) (h : resolveL ts ss p i = .ok ms) :
    describeL ms = describeL ts := by
  match ts, ss with
  | .nil, .nil =>
      simp only [resolveL, Except.ok.injEq] at h
      subst h
      rfl
  | .cons t ts, .cons s ss =>
      simp only [resolveL] at h
      cases hm : resolveT t s (.idx i :: p) with
      | error e =>
          simp only [hm, Bind.bind, Except.bind] at h
          exact Except.noConfusion h
      | ok m =>
          simp only [hm, Bind.bind, Except.bind] at h
          cases hms : resolveL ts ss p (i + 1) with
          | error e =>
              simp only [hms] at h
              exact Except.noConfusion h
          | ok ms' =>
              simp only [hms, pure, Except.pure, Except.ok.injEq] at h
              subst h
              simp [describeL, resolveT_describe t s _ m hm, resolveL_describe ts ss p (i + 1) ms' hms]
  | .nil, .cons s ss => simp [resolveL] at h
  | .cons t ts, .nil => simp [resolveL] at h

/-- Mapping-children case of `resolveT_describe`: keys and child
structures coincide. -/
theorem resolveD_describe (ts : TreeDict Leaf) (ss : TreeDict SpecAtom) (p : List Step)
    (ms : TreeDict Bool) (h : resolveD ts ss p = .ok ms) :
    describeD ms = describeD ts := by
  match ts, ss with
  | .nil, .nil =>
      simp only [resolveD, Except.ok.injEq] at h
      subst h
      rfl
  | .cons k t ts, .cons k' s ss =>
      simp only [resolveD] at h
      split at h
      · cases hm : resolveT t s (.key k :: p) with
        | error e =>
            simp only [hm, Bind.bind, Except.bind] at h
            exact Except.noConfusion h
        | ok m =>
            simp only [hm, Bind.bind, Except.bind] at h
            cases hms : resolveD ts ss p with
            | error e =>
                simp only [hms] at h
                exact Except.noConfusion h
            | ok ms' =>
                simp only [hms, pure, Except.pure, Except.ok.injEq] at h
                subst h
                simp [describeD, resolveT_describe t s _ m hm, resolveD_describe ts ss p ms' hms]
      · cases h
  | .nil, .cons k' s ss => simp [resolveD] at h
  | .cons k t ts, .nil => simp [resolveD] at h
end

/-- A tree whose descriptor is the leaf sentinel is a leaf. -/
theorem describe_eq_leaf {m : TreeF α} (h : describe m = TreeF.leaf ()) :
    ∃ v, m = TreeF.leaf v := by
  cases m with
  | leaf v => exact ⟨v, rfl⟩
  | list xs => simp [describe] at h
  | dict xs => simp [describe] at h
  | record n st fs => simp [describe] at h

/-- A tree whose descriptor is a sequence node is a sequence node with
children of the given descriptors. -/
theorem describe_eq_list {m : TreeF α} {ds : TreeList Unit} (h : describe m = TreeF.list ds) :
    ∃ ms, m = TreeF.list ms ∧ describeL ms = ds := by
  cases m with
  | leaf v => simp [describe] at h
  | list xs =>
      simp only [describe, TreeF.list.injEq] at h
      exact ⟨xs, rfl, h⟩
  | dict xs => simp [describe] at h
  | record n st fs => simp [describe] at h

/-- A tree whose descriptor is a mapping node is a mapping node with
children of the given descriptors. -/
theorem describe_eq_dict {m : TreeF α} {ds : TreeDict Unit} (h : describe m = TreeF.dict ds) :
    ∃ ms, m = TreeF.dict ms ∧ describeD ms = ds := by
  cases m with
  | leaf v => simp [describe] at h
  | list xs => simp [describe] at h
  | dict xs =>
      simp only [describe, TreeF.dict.injEq] at h
      exact ⟨xs, rfl, h⟩
  | record n st fs => simp [describe] at h

/-- A tree whose descriptor is a record node is a record with the same
name, the same static-field values, and dynamic fields of the given
descriptors. -/
theorem describe_eq_record {m : TreeF α} {n : String} {st : List (String × SVal)}
    {ds : TreeDict Unit} (h : describe m = TreeF.record n st ds) :
    ∃ ms, m = TreeF.record n st ms ∧ describeD ms = ds := by
  cases m with
  | leaf v => simp [describe] at h
  | list xs => simp [describe] at h
  | dict xs => simp [describe] at h
  | record n' st' fs =>
      simp only [describe, TreeF.record.injEq] at h
      obtain ⟨h1, h2, h3⟩ := h
      subst h1; subst h2
      exact ⟨fs, rfl, h3⟩

/-- Children with an empty descriptor list are empty. -/
theorem describeL_eq_nil {ms : TreeList α} (h : describeL ms = TreeList.nil) :
    ms = TreeList.nil := by
  cases ms with
  | nil => rfl
  | cons t ts => simp [describeL] at h

/-- Children with a cons descriptor list decompose accordingly. -/
theorem describeL_eq_cons {ms : TreeList α} {d : TreeF Unit} {ds : TreeList Unit}
    (h : describeL ms = TreeList.cons d ds) :
    ∃ m' ms', ms = TreeList.cons m' ms' ∧ describe m' = d ∧ describeL ms' = ds := by
  cases ms with
  | nil => simp [describeL] at h
  | cons t ts =>
      simp only [describeL, TreeList.cons.injEq] at h
      exact ⟨t, ts, rfl, h.1, h.2⟩

/-- Mapping children with an empty descriptor dictionary are empty. -/
theorem describeD_eq_nil {ms : TreeDict α} (h : describeD ms = TreeDict.nil) :
    ms = TreeDict.nil := by
  cases ms with
  | nil => rfl
  | cons k t ts => simp [describeD] at h

/-- Mapping children with a cons descriptor dictionary decompose
accordingly, with the same key. -/
theorem describeD_eq_cons {ms : TreeDict α} {k : String} {d : TreeF Unit} {ds : TreeDict Unit}
    (h : describeD ms = TreeDict.cons k d ds) :
    ∃ m' ms', ms = TreeDict.cons k m' ms' ∧ describe m' = d ∧ describeD ms' = ds := by
  cases ms with
  | nil => simp [describeD] at h
  | cons k' t ts =>
      simp only [describeD, TreeDict.cons.injEq] at h
      obtain ⟨h1, h2, h3⟩ := h
      subst h1
      exact ⟨t, ts, rfl, h2, h3⟩

mutual
/-- Both partition outputs have the structure descriptor of the input
(spec section 4.4): static fields and all container structure are copied
unchanged into both outputs; a composite all of whose leaves are filtered
out stays a composite with null-marker leaves. -/
theorem partT_describe : ∀ (t : Tree) (m : TreeF Bool), describe m = describe t →
    describe (partT t m).1 = describe t ∧ describe (partT t m).2 = describe t
  | .leaf v, m, h => by
      obtain ⟨bb, rfl⟩ := describe_eq_leaf h
      cases bb <;> simp [partT, describe]
  | .list xs, m, h => by
      rw [describe] at h
      obtain ⟨ms, rfl, hL⟩ := describe_eq_list h
      have ih := partL_describe xs ms hL
      simp [partT, describe, ih.1, ih.2]
  | .dict xs, m, h => by
      rw [describe] at h
      obtain ⟨ms, rfl, hD⟩ := describe_eq_dict h
      have ih := partD_describe xs ms hD
      simp [partT, describe, ih.1, ih.2]
  | .record n st fs, m, h => by
      rw [describe] at h
      obtain ⟨ms, rfl, hD⟩ := describe_eq_record h
      have ih := partD_describe fs ms hD
      simp [partT, describe, ih.1, ih.2]

/-- Sequence-children case of `partT_describe`. -/
theorem partL_describe : ∀ (ts : TreeList Leaf) (ms : TreeList Bool),
    describeL ms = describeL ts →
    describeL (partL ts ms).1 = describeL ts ∧ describeL (partL ts ms).2 = describeL ts
  | .nil, ms, _ => by simp [partL, describeL]
  | .cons t ts, ms, h => by
      rw [describeL] at h
      obtain ⟨m', ms', rfl, hm, hms⟩ := describeL_eq_cons h
      have iht := partT_describe t m' hm
      have ihts := partL_describe ts ms' hms
      simp [partL, describeL, iht.1, iht.2, ihts.1, ihts.2]

/-- Mapping-children case of `partT_describe`. -/
theorem partD_describe : ∀ (ts : TreeDict Leaf) (ms : TreeDict Bool),
    describeD ms = describeD ts →
    describeD (partD ts ms).1 = describeD ts ∧ describeD (partD ts ms).2 = describeD ts
  | .nil, ms, _ => by simp [partD, describeD]
  | .cons k t ts, ms, h => by
      rw [describeD] at h
      obtain ⟨m', ms', rfl, hm, hms⟩ := describeD_eq_cons h
      have iht := partT_describe t m' hm
      have ihts := partD_describe ts ms' hms
      simp [partD, describeD, iht.1, iht.2, ihts.1, ihts.2]
end

mutual
/-- Combining the two outputs of a partition under a structure-identical
mask reproduces the embedded input tree exactly (spec sections 4.4 and
4.5): at every leaf position exactly one output holds the value and the
other holds the null marker, so the first-non-null merge restores the
value. -/
theorem combT_partT : ∀ (t : Tree) (m : TreeF Bool), describe m = describe t →
    combT (partT t m).1 (partT t m).2 = mapT some t
  | .leaf v, m, h => by
      obtain ⟨bb, rfl⟩ := describe_eq_leaf h
      cases bb <;> simp [partT, combT, mapT, nullMarker]
  | .list xs, m, h => by
      rw [describe] at h
      obtain ⟨ms, rfl, hL⟩ := describe_eq_list h
      simp [partT, combT, mapT, combL_partL xs ms hL]
  | .dict xs, m, h => by
      rw [describe] at h
      obtain ⟨ms, rfl, hD⟩ := describe_eq_dict h
      simp [partT, combT, mapT, combD_partD xs ms hD]
  | .record n st fs, m, h => by
      rw [describe] at h
      obtain ⟨ms, rfl, hD⟩ := describe_eq_record h
      simp [partT, combT, mapT, combD_partD fs ms hD]

/-- Sequence-children case of `combT_partT`. -/
theorem combL_partL : ∀ (ts : TreeList Leaf) (ms : TreeList Bool),
    describeL ms = describeL ts →
    combL (partL ts ms).1 (partL ts ms).2 = mapL some ts
  | .nil, ms, _ => by simp [partL, combL, mapL]
  | .cons t ts, ms, h => by
      rw [describeL] at h
      obtain ⟨m', ms', rfl, hm, hms⟩ := describeL_eq_cons h
      simp [partL, combL, mapL, combT_partT t m' hm, combL_partL ts ms' hms]

/-- Mapping-children case of `combT_partT`. -/
theorem combD_partD : ∀ (ts : TreeDict Leaf) (ms : TreeDict Bool),
    describeD ms = describeD ts →
    combD (partD ts ms).1 (partD ts ms).2 = mapD some ts
  | .nil, ms, _ => by simp [partD, combD, mapD]
  | .cons k t ts, ms, h => by
      rw [describeD] at h
      obtain ⟨m', ms', rfl, hm, hms⟩ := describeD_eq_cons h
      simp [partD, combD, mapD, combT_partT t m' hm, combD_partD ts ms' hms]
end

mutual
/-- A descriptor has no divergence from itself. -/
theorem descrDiff_self : ∀ (d : Descr) (p : List Step), descrDiff d d p = none
  | .leaf _, p => by simp [descrDiff]
  | .list xs, p => by simp [descrDiff, descrDiffL_self xs]
  | .dict xs, p => by simp [descrDiff, descrDiffD_self xs]
  | .record n st fs, p => by simp [descrDiff, descrDiffD_self fs]

/-- Sequence-children case of `descrDiff_self`. -/
theorem descrDiffL_self : ∀ (ds : TreeList Unit) (p : List Step) (i : Nat),
    descrDiffL ds ds p i = none
  | .nil, p, i => by simp [descrDiffL]
  | .cons d ds, p, i => by
      simp [descrDiffL, descrDiff_self d, descrDiffL_self ds]

/-- Mapping-children case of `descrDiff_self`. -/
theorem descrDiffD_self : ∀ (ds : TreeDict Unit) (p : List Step),
    descrDiffD ds ds p = none
  | .nil, p => by simp [descrDiffD]
  | .cons k d ds, p => by
      simp [descrDiffD, descrDiff_self d, descrDiffD_self ds]
end

mutual
/-- Counting law of the flat codec (spec section 4.6): under a
structure-identical mask, the mask sequence counts `true` once per kept
leaf and `false` once per not-kept leaf, and has one bit per leaf of the
tree. -/
theorem keptT_count : ∀ (t : Tree) (m : TreeF Bool), describe m = describe t →
    (leaves m).count true = (keptT t m).length ∧
    (leaves m).count false = (otherT t m).length ∧
    (leaves m).length = (leaves t).length
  | .leaf v, m, h => by
      obtain ⟨bb, rfl⟩ := describe_eq_leaf h
      cases bb <;> simp [leaves, keptT, otherT]
  | .list xs, m, h => by
      rw [describe] at h
      obtain ⟨ms, rfl, hL⟩ := describe_eq_list h
      simpa [leaves, keptT, otherT] using keptL_count xs ms hL
  | .dict xs, m, h => by
      rw [describe] at h
      obtain ⟨ms, rfl, hD⟩ := describe_eq_dict h
      simpa [leaves, keptT, otherT] using keptD_count xs ms hD
  | .record n st fs, m, h => by
      rw [describe] at h
      obtain ⟨ms, rfl, hD⟩ := describe_eq_record h
      simpa [leaves, keptT, otherT] using keptD_count fs ms hD

/-- Sequence-children case of `keptT_count`. -/
theorem keptL_count : ∀ (ts : TreeList Leaf) (ms : TreeList Bool),
    describeL ms = describeL ts →
    (leavesL ms).count true = (keptL ts ms).length ∧
    (leavesL ms).count false = (otherL ts ms).length ∧
    (leavesL ms).length = (leavesL ts).length
  | .nil, ms, h => by
      have := describeL_eq_nil (h.trans (by simp [describeL]))
      subst this
      simp [leavesL, keptL, otherL]
  | .cons t ts, ms, h => by
      rw [describeL] at h
      obtain ⟨m', ms', rfl, hm, hms⟩ := describeL_eq_cons h
      have iht := keptT_count t m' hm
      have ihts := keptL_count ts ms' hms
      simp [leavesL, keptL, otherL, List.count_append, List.length_append,
        iht.1, iht.2.1, iht.2.2, ihts.1, ihts.2.1, ihts.2.2]

/-- Mapping-children case of `keptT_count`. -/
theorem keptD_count : ∀ (ts : TreeDict Leaf) (ms : TreeDict Bool),
    describeD ms = describeD ts →
    (leavesD ms).count true = (keptD ts ms).length ∧
    (leavesD ms).count false = (otherD ts ms).length ∧
    (leavesD ms).length = (leavesD ts).length
  | .nil, ms, h => by
      have := describeD_eq_nil (h.trans (by simp [describeD]))
      subst this
      simp [leavesD, keptD, otherD]
  | .cons k t ts, ms, h => by
      rw [describeD] at h
      obtain ⟨m', ms', rfl, hm, hms⟩ := describeD_eq_cons h
      have iht := keptT_count t m' hm
      have ihts := keptD_count ts ms' hms
      simp [leavesD, keptD, otherD, List.count_append, List.length_append,
        iht.1, iht.2.1, iht.2.2, ihts.1, ihts.2.1, ihts.2.2]
end

mutual
/-- Replaying the canonical traversal on the four artifacts of a split
rebuilds the original tree and consumes exactly the emitted leaves and
bits, for any suffixes appended to the three sequences (spec section 4.6,
round-trip of the flat codec). -/
theorem rebuildT_round : ∀ (t : Tree) (m : TreeF Bool), describe m = describe t →
    ∀ (k o : List Leaf) (bs : List Bool),
    rebuildT (describe t) (keptT t m ++ k) (otherT t m ++ o) (leaves m ++ bs) =
      some (t, k, o, bs)
  | .leaf v, m, h, k, o, bs => by
      obtain ⟨bb, rfl⟩ := describe_eq_leaf h
      cases bb <;> simp [describe, leaves, keptT, otherT, rebuildT]
  | .list xs, m, h, k, o, bs => by
      rw [describe] at h
      obtain ⟨ms, rfl, hL⟩ := describe_eq_list h
      simp [describe, leaves, keptT, otherT, rebuildT,
        rebuildL_round xs ms hL k o bs, Option.bind]
  | .dict xs, m, h, k, o, bs => by
      rw [describe] at h
      obtain ⟨ms, rfl, hD⟩ := describe_eq_dict h
      simp [describe, leaves, keptT, otherT, rebuildT,
        rebuildD_round xs ms hD k o bs, Option.bind]
  | .record n st fs, m, h, k, o, bs => by
      rw [describe] at h
      obtain ⟨ms, rfl, hD⟩ := describe_eq_record h
      simp [describe, leaves, keptT, otherT, rebuildT,
        rebuildD_round fs ms hD k o bs, Option.bind]

/-- Sequence-children case of `rebuildT_round`. -/
theorem rebuildL_round : ∀ (ts : TreeList Leaf) (ms : TreeList Bool),
    describeL ms = describeL ts →
    ∀ (k o : List Leaf) (bs : List Bool),
    rebuildL (describeL ts) (keptL ts ms ++ k) (otherL ts ms ++ o) (leavesL ms ++ bs) =
      some (ts, k, o, bs)
  | .nil, ms, h, k, o, bs => by
      simp [describeL, keptL, otherL]
      have := describeL_eq_nil (h.trans (by simp [describeL]))
      subst this
      simp [leavesL, rebuildL]
  | .cons t ts, ms, h, k, o, bs => by
      rw [describeL] at h
      obtain ⟨m', ms', rfl, hm, hms⟩ := describeL_eq_cons h
      have iht := rebuildT_round t m' hm (keptL ts ms' ++ k) (otherL ts ms' ++ o)
        (leavesL ms' ++ bs)
      have ihts := rebuildL_round ts ms' hms k o bs
      simp [describeL, keptL, otherL, leavesL, rebuildL, List.append_assoc,
        iht, ihts, Option.bind]

/-- Mapping-children case of `rebuildT_round`. -/
theorem rebuildD_round : ∀ (ts : TreeDict Leaf) (ms : TreeDict Bool),
    describeD ms = describeD ts →
    ∀ (k o : List Leaf) (bs : List Bool),
    rebuildD (describeD ts) (keptD ts ms ++ k) (otherD ts ms ++ o) (leavesD ms ++ bs) =
      some (ts, k, o, bs)
  | .nil, ms, h, k, o, bs => by
      simp [describeD, keptD, otherD]
      have := describeD_eq_nil (h.trans (by simp [describeD]))
      subst this
      simp [leavesD, rebuildD]
  | .cons kk t ts, ms, h, k, o, bs => by
      rw [describeD] at h
      obtain ⟨m', ms', rfl, hm, hms⟩ := describeD_eq_cons h
      have iht := rebuildT_round t m' hm (keptD ts ms' ++ k) (otherD ts ms' ++ o)
        (leavesD ms' ++ bs)
      have ihts := rebuildD_round ts ms' hms k o bs
      simp [describeD, keptD, otherD, leavesD, rebuildD, List.append_assoc,
        iht, ihts, Option.bind]
end

/-- The error component of a fallible result, if any. -/
def errOf : Except Err α → Option Err
  | .ok _ => none
  | .error e => some e

/-- Mapping a success function does not change the error component. -/
theorem errOf_map (f : α → β) (x : Except Err α) : errOf (x.map f) = errOf x := by
  cases x <;> rfl

mutual
/-- The resolver fails exactly as the purely structural check `checkT` of
the tree's descriptor dictates: whether `resolve_mask` raises a
`StructuralMismatch`, and with which first-divergence path, is a function
of the structure descriptor alone — no leaf value is inspected before the
error is raised (spec section 4.3: checked eagerly). -/
theorem resolveT_err (t : Tree) (s : Spec) (p : List Step) :
    errOf (resolveT t s p) = checkT (describe t) s p := by
  match t, s with
  | t, .leaf a => cases t <;> rfl
  | .list xs, .list ss =>
      simp only [resolveT, describe, checkT, errOf_map]
      exact resolveL_err xs ss p 0
  | .dict xs, .dict ss =>
      simp only [resolveT, describe, checkT, errOf_map]
      exact resolveD_err xs ss p
  | .record n st fs, .record n' st' fs' =>
      simp only [resolveT, describe, checkT]
      split
      · rw [errOf_map]
        exact resolveD_err fs fs' p
      · rfl
  | .leaf v, .list ss => rfl
  | .leaf v, .dict ss => rfl
  | .leaf v, .record n' st' fs' => rfl
  | .list xs, .dict ss => rfl
  | .list xs, .record n' st' fs' => rfl
  | .dict xs, .list ss => rfl
  | .dict xs, .record n' st' fs' => rfl
  | .record n st fs, .list ss => rfl
  | .record n st fs, .dict ss => rfl

/-- Sequence-children case of `resolveT_err`. -/
theorem resolveL_err (ts : TreeList Leaf) (ss : TreeList SpecAtom) (p : List Step) (i : Nat) :
    errOf (resolveL ts ss p i) = checkL (describeL ts) ss p i := by
  match ts, ss with
  | .nil, .nil => rfl
  | .cons t ts, .cons s ss =>
      simp only [resolveL, describeL, checkL]
      cases hm : resolveT t s (.idx i :: p) with
      | error e =>
          have := resolveT_err t s (.idx i :: p)
          rw [hm] at this
          simp only [Bind.bind, Except.bind, ← this, errOf]
      | ok m =>
          have := resolveT_err t s (.idx i :: p)
          rw [hm] at this
          simp only [Bind.bind, Except.bind, ← this, errOf]
          cases hms : resolveL ts ss p (i + 1) with
          | error e =>
              have h2 := resolveL_err ts ss p (i + 1)
              rw [hms] at h2
              simp [← h2, errOf]
          | ok ms =>
              have h2 := resolveL_err ts ss p (i + 1)
              rw [hms] at h2
              simp [← h2, errOf, pure, Except.pure]
  | .nil, .cons s ss => rfl
  | .cons t ts, .nil => rfl

/-- Mapping-children case of `resolveT_err`. -/
theorem resolveD_err (ts : TreeDict Leaf) (ss : TreeDict SpecAtom) (p : List Step) :
    errOf (resolveD ts ss p) = checkD (describeD ts) ss p := by
  match ts, ss with
  | .nil, .nil => rfl
  | .cons k t ts, .cons k' s ss =>
      simp only [resolveD, describeD, checkD]
      split
      · cases hm : resolveT t s (.key k :: p) with
        | error e =>
            have := resolveT_err t s (.key k :: p)
            rw [hm] at this
            simp only [Bind.bind, Except.bind, ← this, errOf]
        | ok m =>
            have := resolveT_err t s (.key k :: p)
            rw [hm] at this
            simp only [Bind.bind, Except.bind, ← this, errOf]
            cases hms : resolveD ts ss p with
            | error e =>
                have h2 := resolveD_err ts ss p
                rw [hms] at h2
                simp [← h2, errOf]
            | ok ms =>
                have h2 := resolveD_err ts ss p
                rw [hms] at h2
                simp [← h2, errOf, pure, Except.pure]
      · rfl
  | .nil, .cons k' s ss => rfl
  | .cons k t ts, .nil => rfl
end

/-- Decidable equality of fallible results, for evaluating the engine on
concrete inputs. -/
instance {ε α : Type} [DecidableEq ε] [DecidableEq α] : DecidableEq (Except ε α)
  | .ok x, .ok y =>
      if h : x = y then .isTrue (by rw [h])
      else .isFalse (fun hh => by cases hh; exact h rfl)
  | .error x, .error y =>
      if h : x = y then .isTrue (by rw [h])
      else .isFalse (fun hh => by cases hh; exact h rfl)
  | .ok _, .error _ => .isFalse (fun hh => by cases hh)
  | .error _, .ok _ => .isFalse (fun hh => by cases hh)

/-- Static fields of a record node, if the tree is a record. -/
def recStatics : TreeF α → Option (List (String × SVal))
  | .record _ st _ => some st
  | _ => none

/-- Keys of mapping children, in order. -/
def dictKeys : TreeDict α → List String
  | .nil => []
  | .cons k _ ts => k :: dictKeys ts

/-- Dynamic-field names of a record node, in declared order, if the tree
is a record. -/
def recFieldNames : TreeF α → Option (List String)
  | .record _ _ fs => some (dictKeys fs)
  | _ => none

/-- The statics of a record are visible in its structure descriptor. -/
theorem recStatics_describe (u : TreeF α) : recStatics (describe u) = recStatics u := by
  cases u <;> rfl

/-- Taking descriptors preserves mapping keys. -/
theorem dictKeys_describeD : ∀ ds : TreeDict α, dictKeys (describeD ds) = dictKeys ds
  | .nil => rfl
  | .cons k t ts => by simp [describeD, dictKeys, dictKeys_describeD ts]

/-- The dynamic-field names of a record are visible in its structure
descriptor. -/
theorem recFieldNames_describe (u : TreeF α) : recFieldNames (describe u) = recFieldNames u := by
  cases u <;> simp [describe, recFieldNames, dictKeys_describeD]

mutual
/-- A descriptor implies the same leaf count as the tree it describes. -/
theorem leaves_describe_length : ∀ t : TreeF α, (leaves (describe t)).length = (leaves t).length
  | .leaf v => by simp [describe, leaves]
  | .list xs => by simp [describe, leaves, leavesL_describeL_length xs]
  | .dict xs => by simp [describe, leaves, leavesD_describeD_length xs]
  | .record n st fs => by simp [describe, leaves, leavesD_describeD_length fs]

/-- Sequence-children case of `leaves_describe_length`. -/
theorem leavesL_describeL_length : ∀ ts : TreeList α,
    (leavesL (describeL ts)).length = (leavesL ts).length
  | .nil => by simp [describeL, leavesL]
  | .cons t ts => by
      simp [describeL, leavesL, leaves_describe_length t, leavesL_describeL_length ts]

/-- Mapping-children case of `leaves_describe_length`. -/
theorem leavesD_describeD_length : ∀ ts : TreeDict α,
    (leavesD (describeD ts)).length = (leavesD ts).length
  | .nil => by simp [describeD, leavesD]
  | .cons k t ts => by
      simp [describeD, leavesD, leaves_describe_length t, leavesD_describeD_length ts]
end

/-! ### Concrete fixtures from `tests/test_filters.py` -/

/-- Mapping key `a`. -/
def kA := "a"
/-- Mapping key `b`. -/
def kB := "b"
/-- Mapping key `c`. -/
def kC := "c"
/-- The string leaf of the test trees. -/
def strHi := "hi"

/-- The predicate of the filtering tests, `lambda x: isinstance(x, int)`:
true for Python ints and bools (`bool` is a subclass of `int` in Python),
false for everything else. -/
def is_int_leaf : Leaf → Bool
  | .pint _ => true
  | .pbool _ => true
  | _ => false

/-- A `Linear(1, 1)` instance with floating-point parameter buffers. -/
def linearA : Tree := mkLinear (.jarr true [1, 1] tagRand) (.jarr true [1] tagRand)

/-- The tree of the concrete filtering scenario:
`[1, 2, [3, "hi", {"a": 1.0, "b": 4, "c": <record with numeric leaves>}]]`. -/
def c8tree : Tree :=
  .list (.cons (.leaf (.pint 1)) (.cons (.leaf (.pint 2)) (.cons
    (.list (.cons (.leaf (.pint 3)) (.cons (.leaf (.pstr strHi)) (.cons
      (.dict (.cons kA (.leaf (.pfloat 1 0)) (.cons kB (.leaf (.pint 4))
        (.cons kC linearA .nil))))
      .nil))))
    .nil)))

/-- Expected result of filtering `c8tree` by the integer predicate: every
non-integer leaf position holds the null marker; the record at key `c`
remains a record, all of its leaves nulled. -/
def c8expected : PTree :=
  .list (.cons (.leaf (some (.pint 1))) (.cons (.leaf (some (.pint 2))) (.cons
    (.list (.cons (.leaf (some (.pint 3))) (.cons (.leaf nullMarker) (.cons
      (.dict (.cons kA (.leaf nullMarker) (.cons kB (.leaf (some (.pint 4)))
        (.cons kC (mapT (fun _ => nullMarker) linearA) .nil))))
      .nil))))
    .nil)))

/-- The structurally mismatched scenario of
`test_splittree_and_merge`: input tree `[True, None]`. -/
def mismatchTree : Tree :=
  .list (.cons (.leaf (.pbool true)) (.cons (.leaf .pynone) .nil))

/-- The structurally mismatched filter tree `[True, [False, False]]`: its
second element is a two-element sequence where the input has a leaf. -/
def mismatchSpec : Spec :=
  .list (.cons (.leaf (.b true))
    (.cons (.list (.cons (.leaf (.b false)) (.cons (.leaf (.b false)) .nil))) .nil))

/-! ### Claim theorems -/

/-- C1: for every tree `t` and every structurally valid filter spec `s`
(one that resolves into a mask, hence into a partition), combining the two
outputs of `partition` reproduces the original tree exactly — `combine`
takes the first non-null value at each leaf, and the two outputs are
complementary. -/
theorem partition_combine_roundtrip (t : Tree) (s : Spec) (kp : PTree × PTree)
    (h : partition t s = .ok kp) :
    combine kp.1 [kp.2] = .ok (mapT some t) := by
  unfold partition at h
  cases hr : resolve_mask t s with
  | error e =>
      rw [hr] at h
      simp [Except.map] at h
  | ok m =>
      rw [hr] at h
      simp only [Except.map, Except.ok.injEq] at h
      subst h
      have hd : describe m = describe t := resolveT_describe t s [] m hr
      have h1 := (partT_describe t m hd).1
      have h2 := (partT_describe t m hd).2
      simp only [combine, firstMismatch, h1, h2, descrDiff_self, List.foldl]
      rw [combT_partT t m hd]

/-- C1 witness: the round trip evaluated on the concrete scenario tree
with the integer predicate. -/
theorem partition_combine_roundtrip_witness :
    combine (partT c8tree (mapT is_int_leaf c8tree)).1
      [(partT c8tree (mapT is_int_leaf c8tree)).2] = .ok (mapT some c8tree) :=
  partition_combine_roundtrip c8tree (.leaf (.p is_int_leaf))
    (partT c8tree (mapT is_int_leaf c8tree)) (by decide)

/-- C2: for every tree `t` and every structurally valid filter spec `s`,
the flat codec round-trips losslessly: `merge` applied to the four outputs
of `split` returns the original tree. -/
theorem split_merge_roundtrip (t : Tree) (s : Spec)
    (r : List Leaf × List Leaf × List Bool × Descr)
    (h : splitTree t s = .ok r) :
    mergeTree r.1 r.2.1 r.2.2.1 r.2.2.2 = .ok t := by
  unfold splitTree at h
  cases hr : resolve_mask t s with
  | error e =>
      rw [hr] at h
      simp [Except.map] at h
  | ok m =>
      rw [hr] at h
      simp only [Except.map, Except.ok.injEq] at h
      subst h
      have hd : describe m = describe t := resolveT_describe t s [] m hr
      have hlen : (leaves m).length = (leaves t).length := (keptT_count t m hd).2.2
      simp only [mergeTree, leafCount]
      rw [if_pos (by rw [hlen, leaves_describe_length t])]
      have hre := rebuildT_round t m hd [] [] []
      simp only [List.append_nil] at hre
      rw [hre]

/-- C2 witness: the flat round trip evaluated on the concrete scenario
tree with the integer predicate. -/
theorem split_merge_roundtrip_witness :
    mergeTree (keptT c8tree (mapT is_int_leaf c8tree))
      (otherT c8tree (mapT is_int_leaf c8tree))
      (leaves (mapT is_int_leaf c8tree)) (describe c8tree) = .ok c8tree :=
  split_merge_roundtrip c8tree (.leaf (.p is_int_leaf))
    (keptT c8tree (mapT is_int_leaf c8tree), otherT c8tree (mapT is_int_leaf c8tree),
      leaves (mapT is_int_leaf c8tree), describe c8tree) (by decide)

/-- C3: both outputs of `partition` carry the structure descriptor of the
input tree — composites whose leaves are all filtered out stay composites
with null-marker leaves (a descriptor records the composite kind, so the
equality rules out collapsing to a leaf), and static fields, being part of
the descriptor, are copied unchanged into both outputs. -/
theorem partition_structure (t : Tree) (s : Spec) (kp : PTree × PTree)
    (h : partition t s = .ok kp) :
    describe kp.1 = describe t ∧ describe kp.2 = describe t := by
  unfold partition at h
  cases hr : resolve_mask t s with
  | error e =>
      rw [hr] at h
      simp [Except.map] at h
  | ok m =>
      rw [hr] at h
      simp only [Except.map, Except.ok.injEq] at h
      subst h
      exact partT_describe t m (resolveT_describe t s [] m hr)

/-- C3 witness: structure preservation evaluated on the concrete scenario
tree, whose record at key `c` has every leaf filtered out. -/
theorem partition_structure_witness :
    describe (partT c8tree (mapT is_int_leaf c8tree)).1 = describe c8tree ∧
    describe (partT c8tree (mapT is_int_leaf c8tree)).2 = describe c8tree :=
  partition_structure c8tree (.leaf (.p is_int_leaf))
    (partT c8tree (mapT is_int_leaf c8tree)) (by decide)

/-- C4: a tree-shaped filter spec whose structure diverges from the input
makes `filter`, `partition` and `split` fail with the very
`StructuralMismatch` error (carrying the path of the first divergence)
computed by the purely structural check `checkT` of the tree's descriptor:
the failure is decided by structure alone, before any leaf value is
inspected, and no partial result is produced. -/
theorem structural_mismatch_eager (t : Tree) (s : Spec) (e : Err)
    (h : checkT (describe t) s [] = some e) :
    resolve_mask t s = .error e ∧ filter t s = .error e ∧
    partition t s = .error e ∧ splitTree t s = .error e := by
  have he := resolveT_err t s []
  rw [h] at he
  cases hr : resolveT t s [] with
  | ok m =>
      rw [hr] at he
      simp [errOf] at he
  | error e' =>
      rw [hr] at he
      simp only [errOf, Option.some.injEq] at he
      subst he
      exact ⟨hr, by simp [filter, partition, resolve_mask, hr, Except.map],
        by simp [partition, resolve_mask, hr, Except.map],
        by simp [splitTree, resolve_mask, hr, Except.map]⟩

/-- C4 witness: the mismatched mask tree `[True, [False, False]]` against
the input `[True, None]` is rejected by all three operations with the
mismatch located at index 1. -/
theorem structural_mismatch_eager_witness :
    checkT (describe mismatchTree) mismatchSpec [] =
      some (.structuralMismatch [.idx 1]) ∧
    splitTree mismatchTree mismatchSpec = .error (.structuralMismatch [.idx 1]) ∧
    filter mismatchTree mismatchSpec = .error (.structuralMismatch [.idx 1]) :=
  ⟨by decide,
    (structural_mismatch_eager mismatchTree mismatchSpec _ (by decide)).2.2.2,
    (structural_mismatch_eager mismatchTree mismatchSpec _ (by decide)).2.1⟩

/-- C5: the mask sequence emitted by `split` has one bit per leaf of the
tree, its count of true bits is the length of the kept-leaf sequence and
its count of false bits the length of the other-leaf sequence, all three
sequences being produced by the single canonical pre-order traversal. -/
theorem split_mask_counts (t : Tree) (s : Spec)
    (r : List Leaf × List Leaf × List Bool × Descr)
    (h : splitTree t s = .ok r) :
    r.2.2.1.length = (leaves t).length ∧
    r.2.2.1.count true = r.1.length ∧
    r.2.2.1.count false = r.2.1.length := by
  unfold splitTree at h
  cases hr : resolve_mask t s with
  | error e =>
      rw [hr] at h
      simp [Except.map] at h
  | ok m =>
      rw [hr] at h
      simp only [Except.map, Except.ok.injEq] at h
      subst h
      have hc := keptT_count t m (resolveT_describe t s [] m hr)
      exact ⟨hc.2.2, hc.1, hc.2.1⟩

/-- C5 witness: the counting law evaluated on the concrete scenario tree,
where four of the eight leaves are integers. -/
theorem split_mask_counts_witness :
    (leaves (mapT is_int_leaf c8tree)).length = (leaves c8tree).length ∧
    (leaves (mapT is_int_leaf c8tree)).count true =
      (keptT c8tree (mapT is_int_leaf c8tree)).length ∧
    (leaves (mapT is_int_leaf c8tree)).count false =
      (otherT c8tree (mapT is_int_leaf c8tree)).length :=
  split_mask_counts c8tree (.leaf (.p is_int_leaf))
    (keptT c8tree (mapT is_int_leaf c8tree), otherT c8tree (mapT is_int_leaf c8tree),
      leaves (mapT is_int_leaf c8tree), describe c8tree) (by decide)

mutual
/-- Modelled from the spec: the program's direct filtering of a tree by a
tree-shaped specification, with the program's actual marker — the Python
`None` value itself (`Leaf.pynone`) — in place of the two-state option the
spec prescribes in section 9 (the engine source `equinox/filters.py` is
not in the source sample; the behaviour is fixed by
`tests/test_filters.py::test_filter` lines 105-117).  A predicate atom is
mapped over every leaf of the subtree at its position (line 116,
`filtered[2][0] == none_linear`); a boolean atom is applied to the whole
subtree as a unit — `True` keeps the subtree, `False` replaces it by one
bare `None` (line 114, `filtered[0] is None`); composite spec nodes must
match the tree's structure. -/
def filterRawT (t : Tree) (s : Spec) (path : List Step) : Except Err Tree :=
  match t, s with
  | t, .leaf (.b bb) => .ok (if bb then t else .leaf .pynone)
  | t, .leaf (.p f) => .ok (mapT (fun l => if f l then l else Leaf.pynone) t)
  | .list xs, .list ss => (filterRawL xs ss path 0).map .list
  | .dict xs, .dict ss => (filterRawD xs ss path).map .dict
  | .record n st fs, .record n' st' fs' =>
      if n = n' ∧ st = st' then (filterRawD fs fs' path).map (.record n st)
      else .error (.structuralMismatch path.reverse)
  | _, _ => .error (.structuralMismatch path.reverse)

/-- Sequence-children case of `filterRawT`. -/
def filterRawL (ts : TreeList Leaf) (ss : TreeList SpecAtom) (path : List Step) (i : Nat) :
    Except Err (TreeList Leaf) :=
  match ts, ss with
  | .nil, .nil => .ok .nil
  | .cons t ts, .cons s ss => do
      let r ← filterRawT t s (.idx i :: path)
      let rs ← filterRawL ts ss path (i + 1)
      return .cons r rs
  | _, _ => .error (.structuralMismatch path.reverse)

/-- Mapping-children case of `filterRawT`. -/
def filterRawD (ts : TreeDict Leaf) (ss : TreeDict SpecAtom) (path : List Step) :
    Except Err (TreeDict Leaf) :=
  match ts, ss with
  | .nil, .nil => .ok .nil
  | .cons k t ts, .cons k' s ss =>
      if k = k' then do
        let r ← filterRawT t s (.key k :: path)
        let rs ← filterRawD ts ss path
        return .cons k r rs
      else .error (.structuralMismatch path.reverse)
  | _, _ => .error (.structuralMismatch path.reverse)
end

/-- C6 (code-bug evidence): the marker the program writes is the Python
`None` value itself, not a distinguished two-state option — filtering
every leaf out of a `LayerNorm` built with `elementwise_affine=False`
(whose genuine `weight` and `bias` values are `None`, per
`src/equinox/nn/normalization.py` lines 39-40) returns a tree equal to
the untouched input, because the genuine leaves coincide with the marker;
replacing every leaf of that record by the marker is likewise a no-op;
and the marker value is a legitimate input tree element (`[True, None]`),
passing through an all-true filter unchanged. -/
theorem null_marker_code_bug :
    leaves (mkLayerNorm [1] (SVal.f 1 (-5)) false) = [Leaf.pynone, Leaf.pynone] ∧
    filterRawT (mkLayerNorm [1] (SVal.f 1 (-5)) false) (.leaf (.p is_int_leaf)) [] =
      .ok (mkLayerNorm [1] (SVal.f 1 (-5)) false) ∧
    mapT (fun _ => Leaf.pynone) (mkLayerNorm [1] (SVal.f 1 (-5)) false) =
      mkLayerNorm [1] (SVal.f 1 (-5)) false ∧
    filterRawT mismatchTree (.leaf (.b true)) [] = .ok mismatchTree :=
  ⟨by decide, by decide, by decide, by decide⟩

/-- The ten values of `test_is_array_like`, in test order: `1`, `2.0`,
`[2.0]`, `True`, `object()`, `jnp.array([1])`, `jnp.array(1.0)`,
`np.array(1.0)`, `np.array(1)`, `eqx.nn.Linear(1, 1)`. -/
def objs7 : List (TreeF Leaf) :=
  [.leaf (.pint 1), .leaf (.pfloat 2 0), .list (.cons (.leaf (.pfloat 2 0)) .nil),
   .leaf (.pbool true), .leaf (.obj 0), .leaf (.jarr false [1] tagRand),
   .leaf (.jarr true [] tagRand), .leaf (.narr true [] tagRand),
   .leaf (.narr false [] tagRand), linearA]

/-- C7: the leaf classifier `is_array_like` is true for every numeric
buffer of either library and every Python bool/int/float scalar, and false
for every container and every opaque non-scalar object — both on the
test-suite's ten-value vector and in general, per constructor. -/
theorem is_array_like_correct :
    objs7.map is_array_like =
      [true, true, false, true, false, true, true, true, true, false] ∧
    (∀ fl sh tg, is_array_like (.leaf (.jarr fl sh tg)) = true) ∧
    (∀ fl sh tg, is_array_like (.leaf (.narr fl sh tg)) = true) ∧
    (∀ n, is_array_like (.leaf (.pint n)) = true) ∧
    (∀ mm ee, is_array_like (.leaf (.pfloat mm ee)) = true) ∧
    (∀ bb, is_array_like (.leaf (.pbool bb)) = true) ∧
    (∀ xs, is_array_like (TreeF.list xs) = false) ∧
    (∀ xs, is_array_like (TreeF.dict xs) = false) ∧
    (∀ n st fs, is_array_like (TreeF.record n st fs) = false) ∧
    (∀ i, is_array_like (.leaf (.obj i)) = false) ∧
    is_array_like (.leaf .pynone) = false :=
  ⟨rfl, fun _ _ _ => rfl, fun _ _ _ => rfl, fun _ => rfl, fun _ _ => rfl,
   fun _ => rfl, fun _ => rfl, fun _ => rfl, fun _ _ _ => rfl, fun _ => rfl, rfl⟩

/-- C8: filtering the concrete scenario tree
`[1, 2, [3, "hi", {"a": 1.0, "b": 4, "c": <record>}]]` by the integer
predicate keeps exactly the integer leaves `1, 2, 3, 4` unchanged and puts
the null marker at every other leaf position, including every leaf of the
nested record at key `c`, which remains a record. -/
theorem filter_int_scenario :
    filter c8tree (.leaf (.p is_int_leaf)) = .ok c8expected ∧
    (leaves c8expected).filterMap id =
      [Leaf.pint 1, Leaf.pint 2, Leaf.pint 3, Leaf.pint 4] :=
  ⟨by decide, by decide⟩

/-- The tree of the interior-broadcast scenario of `test_filter`:
`[Linear, Linear, [Linear, sentinel]]`. -/
def c9tree : Tree :=
  .list (.cons linearA (.cons linearA (.cons
    (.list (.cons linearA (.cons (.leaf (.obj 7)) .nil))) .nil)))

/-- The filter spec `[False, True, [filter_fn, True]]`: booleans and a
predicate sit at interior positions of the input tree. -/
def c9spec : Spec :=
  .list (.cons (.leaf (.b false)) (.cons (.leaf (.b true)) (.cons
    (.list (.cons (.leaf (.p is_int_leaf)) (.cons (.leaf (.b true)) .nil))) .nil)))

/-- The output the program actually produces on the interior-atom
scenario (`test_filter` lines 112-117): position 0 — boolean `False`
against a record — is one bare `None`; position 1 — boolean `True` — is
the untouched record; position [2][0] — predicate against a record —
keeps the record's structure with `None` at every leaf (the test's
`none_linear`); the sentinel at [2][1] is kept. -/
def c9actual : Tree :=
  .list (.cons (.leaf .pynone) (.cons linearA (.cons
    (.list (.cons (mapT (fun _ => Leaf.pynone) linearA)
      (.cons (.leaf (.obj 7)) .nil))) .nil)))

/-- The output the claim's per-leaf-broadcast reading predicts: at
position 0 the record with the marker at every leaf, instead of the one
bare `None` the program produces there. -/
def c9broadcast : Tree :=
  .list (.cons (mapT (fun _ => Leaf.pynone) linearA) (.cons linearA (.cons
    (.list (.cons (mapT (fun _ => Leaf.pynone) linearA)
      (.cons (.leaf (.obj 7)) .nil))) .nil)))

/-- C9 (counterexample): on the very scenario the claim cites, an
interior boolean `False` is not broadcast to every leaf of its subtree —
the program collapses the record at position 0 to a single bare `None`
(`test_filter` line 114, `filtered[0] is None`), which differs from the
record-of-markers that per-leaf broadcast would produce. -/
theorem spec_bool_not_broadcast :
    filterRawT c9tree c9spec [] = .ok c9actual ∧ c9actual ≠ c9broadcast :=
  ⟨by decide, by decide⟩

/-- C9 (amended): a tree-shaped filter spec need not be leaf-parallel
with the input — an atom at an interior position, where the input still
has a whole subtree, is accepted; a predicate atom is broadcast to every
leaf of that subtree, while a boolean atom is applied to the subtree as a
unit (`True` keeps the whole subtree, `False` replaces it by a single
null), so `[False, True, [pred, True]]` against a list of composite
records filters each record as a unit. -/
theorem spec_prefix_filtering (t : Tree) :
    (∀ f, filterRawT t (.leaf (.p f)) [] =
      .ok (mapT (fun l => if f l then l else Leaf.pynone) t)) ∧
    filterRawT t (.leaf (.b true)) [] = .ok t ∧
    filterRawT t (.leaf (.b false)) [] = .ok (.leaf Leaf.pynone) ∧
    filterRawT c9tree c9spec [] = .ok c9actual :=
  ⟨fun f => by cases t <;> rfl, by cases t <;> rfl, by cases t <;> rfl, by decide⟩

/-- Statics and dynamic-field names of a record survive partitioning under
any resolved mask, and filtering returns the first partition output. -/
theorem partT_record_statics (t : Tree) (s : Spec) (m : TreeF Bool)
    (h : resolve_mask t s = .ok m) :
    recStatics (partT t m).1 = recStatics t ∧
    recStatics (partT t m).2 = recStatics t ∧
    recFieldNames (partT t m).1 = recFieldNames t ∧
    recFieldNames (partT t m).2 = recFieldNames t ∧
    filter t s = .ok (partT t m).1 := by
  have hd := resolveT_describe t s [] m h
  have hp := partT_describe t m hd
  refine ⟨?_, ?_, ?_, ?_, by simp [filter, partition, h, Except.map]⟩
  · rw [← recStatics_describe (partT t m).1, hp.1, recStatics_describe]
  · rw [← recStatics_describe (partT t m).2, hp.2, recStatics_describe]
  · rw [← recFieldNames_describe (partT t m).1, hp.1, recFieldNames_describe]
  · rw [← recFieldNames_describe (partT t m).2, hp.2, recFieldNames_describe]

/-- C10: in each consumer record type (`Conv`, `ConvTranspose`,
`LayerNorm`) the declared `static_field()` set is exactly the
hyperparameters and the dynamic leaves are exactly `weight` and `bias`;
partitioning under any structurally valid spec keeps every hyperparameter
value unchanged in both outputs (as does `filter`, being the first
output). -/
theorem consumer_records_static :
    ((convFieldDecls.filter (fun q => !q.2)).map Prod.fst = [kWeight, kBias] ∧
     (convFieldDecls.filter (fun q => q.2)).map Prod.fst =
       [sNumSpatialDims, sInChannels, sOutChannels, sKernelSize, sStride,
        sPadding, sDilation, sUseBias] ∧
     ∀ nsd ic oc ks st2 dl pd ub w bv,
       (recStatics (mkConv nsd ic oc ks st2 dl pd ub w bv)).map (List.map Prod.fst) =
         some ((convFieldDecls.filter (fun q => q.2)).map Prod.fst) ∧
       recFieldNames (mkConv nsd ic oc ks st2 dl pd ub w bv) = some [kWeight, kBias] ∧
       leaves (mkConv nsd ic oc ks st2 dl pd ub w bv) = [w, bv] ∧
       ∀ s m, resolve_mask (mkConv nsd ic oc ks st2 dl pd ub w bv) s = .ok m →
         recStatics (partT (mkConv nsd ic oc ks st2 dl pd ub w bv) m).1 =
           recStatics (mkConv nsd ic oc ks st2 dl pd ub w bv) ∧
         recStatics (partT (mkConv nsd ic oc ks st2 dl pd ub w bv) m).2 =
           recStatics (mkConv nsd ic oc ks st2 dl pd ub w bv) ∧
         recFieldNames (partT (mkConv nsd ic oc ks st2 dl pd ub w bv) m).1 =
           some [kWeight, kBias] ∧
         filter (mkConv nsd ic oc ks st2 dl pd ub w bv) s =
           .ok (partT (mkConv nsd ic oc ks st2 dl pd ub w bv) m).1) ∧
    ((convTransposeFieldDecls.filter (fun q => !q.2)).map Prod.fst = [kWeight, kBias] ∧
     (convTransposeFieldDecls.filter (fun q => q.2)).map Prod.fst =
       [sNumSpatialDims, sInChannels, sOutChannels, sKernelSize, sStride,
        sPadding, sOutputPadding, sDilation, sUseBias, sDimensionNumbers] ∧
     ∀ nsd ic oc ks st2 pd opd dl ub dn w bv,
       (recStatics (mkConvTranspose nsd ic oc ks st2 pd opd dl ub dn w bv)).map
           (List.map Prod.fst) =
         some ((convTransposeFieldDecls.filter (fun q => q.2)).map Prod.fst) ∧
       recFieldNames (mkConvTranspose nsd ic oc ks st2 pd opd dl ub dn w bv) =
         some [kWeight, kBias] ∧
       leaves (mkConvTranspose nsd ic oc ks st2 pd opd dl ub dn w bv) = [w, bv] ∧
       ∀ s m, resolve_mask (mkConvTranspose nsd ic oc ks st2 pd opd dl ub dn w bv) s = .ok m →
         recStatics (partT (mkConvTranspose nsd ic oc ks st2 pd opd dl ub dn w bv) m).1 =
           recStatics (mkConvTranspose nsd ic oc ks st2 pd opd dl ub dn w bv) ∧
         recStatics (partT (mkConvTranspose nsd ic oc ks st2 pd opd dl ub dn w bv) m).2 =
           recStatics (mkConvTranspose nsd ic oc ks st2 pd opd dl ub dn w bv) ∧
         recFieldNames (partT (mkConvTranspose nsd ic oc ks st2 pd opd dl ub dn w bv) m).1 =
           some [kWeight, kBias] ∧
         filter (mkConvTranspose nsd ic oc ks st2 pd opd dl ub dn w bv) s =
           .ok (partT (mkConvTranspose nsd ic oc ks st2 pd opd dl ub dn w bv) m).1) ∧
    ((layerNormFieldDecls.filter (fun q => !q.2)).map Prod.fst = [kWeight, kBias] ∧
     (layerNormFieldDecls.filter (fun q => q.2)).map Prod.fst =
       [sNormalizedShape, sEps, sElementwiseAffine] ∧
     ∀ nshape eps affine,
       (recStatics (mkLayerNorm nshape eps affine)).map (List.map Prod.fst) =
         some ((layerNormFieldDecls.filter (fun q => q.2)).map Prod.fst) ∧
       recFieldNames (mkLayerNorm nshape eps affine) = some [kWeight, kBias] ∧
       ∀ s m, resolve_mask (mkLayerNorm nshape eps affine) s = .ok m →
         recStatics (partT (mkLayerNorm nshape eps affine) m).1 =
           recStatics (mkLayerNorm nshape eps affine) ∧
         recStatics (partT (mkLayerNorm nshape eps affine) m).2 =
           recStatics (mkLayerNorm nshape eps affine) ∧
         recFieldNames (partT (mkLayerNorm nshape eps affine) m).1 =
           some [kWeight, kBias] ∧
         filter (mkLayerNorm nshape eps affine) s =
           .ok (partT (mkLayerNorm nshape eps affine) m).1) := by
  refine ⟨⟨rfl, rfl, ?_⟩, ⟨rfl, rfl, ?_⟩, ⟨rfl, rfl, ?_⟩⟩
  · intro nsd ic oc ks st2 dl pd ub w bv
    refine ⟨rfl, rfl, rfl, ?_⟩
    intro s m h
    have hh := partT_record_statics _ s m h
    exact ⟨hh.1, hh.2.1, hh.2.2.1, hh.2.2.2.2⟩
  · intro nsd ic oc ks st2 pd opd dl ub dn w bv
    refine ⟨rfl, rfl, rfl, ?_⟩
    intro s m h
    have hh := partT_record_statics _ s m h
    exact ⟨hh.1, hh.2.1, hh.2.2.1, hh.2.2.2.2⟩
  · intro nshape eps affine
    refine ⟨rfl, rfl, ?_⟩
    intro s m h
    have hh := partT_record_statics _ s m h
    exact ⟨hh.1, hh.2.1, hh.2.2.1, hh.2.2.2.2⟩

/-- A concrete `Conv(2, 3, 4, kernel_size=3)` instance. -/
def conv0 : Tree :=
  mkConv 2 3 4 [3, 3] [1, 1] [1, 1] [(0, 0), (0, 0)] true
    (.jarr true [4, 3, 3, 3] tagRand) (.jarr true [4, 1, 1] tagRand)

/-- C10 witness: the hyperparameters of a concrete `Conv` instance are
unchanged in the first partition output under the all-true spec. -/
theorem consumer_records_static_witness :
    recStatics (partT conv0 (mapT (fun _ => true) conv0)).1 = recStatics conv0 :=
  ((consumer_records_static.1.2.2 2 3 4 [3, 3] [1, 1] [1, 1] [(0, 0), (0, 0)] true
    (.jarr true [4, 3, 3, 3] tagRand) (.jarr true [4, 1, 1] tagRand)).2.2.2
    (.leaf (.b true)) (mapT (fun _ => true) conv0) (by decide)).1

end Eqx
